import Mathlib

/-!
# Verification of the inventory ledger engine

Shallow embedding of the two source variants of the inventory application:

* `Dash` namespace: `inventory_dashboard/inventory_app.py` — an in-memory
  pandas table with columns `Item`, `Initial_Stock`, `Current_Stock`, a log
  table, the "Confirm Transaction" loop for Move / Purchase batches, and the
  dashboard's daily group-by-date summary.
* `Sheet` namespace: `inventory_app.py` — the Google-Sheets variant with
  columns `Sr No`, `Item Name`, `Category`, `Location`, `Initial stock`,
  `Current Stock`, with "Execute All Moves", "Execute All Additions" and
  "Execute All Purchases" batch loops and a move form validation.

Quantities and stock counts are embedded as `Int` (pandas integer columns);
timestamps as `Nat` minutes, with the calendar date obtained by integer
division (mirroring `pd.to_datetime(...).dt.date` bucketing instants into
days).
-/

namespace Dash

/-- One row of `st.session_state.inventory`:
columns `Item`, `Initial_Stock`, `Current_Stock`. -/
structure Row where
  item : String
  initialStock : Int
  currentStock : Int
  deriving Repr, DecidableEq

/-- The `Action` column of a log row: `"Move"` or `"Purchase"`. -/
inductive Action where
  | move
  | purchase
  deriving Repr, DecidableEq

/-- One row of `st.session_state.logs`:
columns `Time`, `Action`, `Item`, `Quantity`, `Final Count`. -/
structure LogEntry where
  time : Nat
  action : Action
  item : String
  quantity : Int
  finalCount : Int
  deriving Repr, DecidableEq

/-- The session state: the inventory table and the log table. -/
structure State where
  inventory : List Row
  logs : List LogEntry
  deriving Repr, DecidableEq

/-- `df.loc[df["Item"] == item, "Current_Stock"].values[0]`: the
`Current_Stock` of the first row whose `Item` equals `item`; `none` models
the `IndexError` raised by `.values[0]` when no row matches. -/
def stockOf (inv : List Row) (item : String) : Option Int :=
  (inv.find? (fun r => r.item == item)).map (fun r => r.currentStock)

/-- `df.loc[df["Item"] == item, "Current_Stock"] += d`: add `d` to the
`Current_Stock` of every row whose `Item` equals `item` (a no-op when no
row matches). -/
def updStock (inv : List Row) (item : String) (d : Int) : List Row :=
  inv.map (fun r =>
    if r.item == item then { r with currentStock := r.currentStock + d } else r)

/-- The per-item outcome of one iteration of the "Confirm Transaction"
loop: a log entry was appended, or `st.error("Not enough stock for ...")`
was shown and the item skipped, or `.values[0]` raised on a missing item. -/
inductive Outcome where
  | ok (entry : LogEntry)
  | insufficientStock (item : String)
  | missingItem (item : String)
  deriving Repr, DecidableEq

/-- One iteration of the `for item, qty in quantities.items()` loop under
`if st.button("Confirm Transaction")`. For "Move Item": if `qty` exceeds
the current stock, show an error and leave the state unchanged; otherwise
decrement `Current_Stock`, read back the final count, and append a log row.
For "Purchase Item": increment `Current_Stock`, read back, and append a log
row. A lookup on an absent item raises (`missingItem`), leaving the state
unchanged. `t` is the `datetime.now()` timestamp. -/
def confirmStep (action : Action) (s : State) (item : String) (qty : Int)
    (t : Nat) : State × Outcome :=
  match action with
  | .move =>
    match stockOf s.inventory item with
    | none => (s, .missingItem item)
    | some cur =>
      if qty > cur then
        (s, .insufficientStock item)
      else
        let inv := updStock s.inventory item (-qty)
        match stockOf inv item with
        | none => (s, .missingItem item)
        | some fc =>
          let e : LogEntry := ⟨t, .move, item, qty, fc⟩
          (⟨inv, s.logs ++ [e]⟩, .ok e)
  | .purchase =>
    let inv := updStock s.inventory item qty
    match stockOf inv item with
    | none => (s, .missingItem item)
    | some fc =>
      let e : LogEntry := ⟨t, .purchase, item, qty, fc⟩
      (⟨inv, s.logs ++ [e]⟩, .ok e)

/-- The whole "Confirm Transaction" loop over the batch of
`(item, quantity)` pairs collected from the multiselect form, returning
the final state and the list of per-item outcomes. An `insufficientStock`
outcome `continue`s to the next item; an uncaught `missingItem` exception
aborts the rest of the loop. -/
def confirmBatch (action : Action) (s : State)
    (batch : List (String × Int)) (t : Nat) : State × List Outcome :=
  match batch with
  | [] => (s, [])
  | (item, qty) :: rest =>
    match confirmStep action s item qty t with
    | (s₁, .missingItem i) => (s₁, [.missingItem i])
    | (s₁, o) =>
      match confirmBatch action s₁ rest t with
      | (s₂, os) => (s₂, o :: os)

/-- Frame relation between a pre-batch row and the corresponding
post-batch row, relative to the item names appearing in the batch: the
`Item` and `Initial_Stock` fields are always preserved, and a row whose
item is not named in the batch is preserved entirely. -/
def framePreserved (names : List String) (a b : Row) : Prop :=
  b.item = a.item ∧ b.initialStock = a.initialStock ∧
    (a.item ∉ names → b = a)

/-- `pd.to_datetime(logs["Time"]).dt.date`: the calendar date of a
timestamp, bucketing minute-resolution instants into days. -/
def dateOf (time : Nat) : Nat :=
  time / 1440

/-- `logs.groupby("Date")["Quantity"].sum().reset_index()` over a list of
`(date, quantity)` pairs: one `(date, total)` pair per distinct date
occurring in the input, in ascending date order (pandas sorts group keys),
each total the sum of the quantities with that date. -/
def aggregateDaily (entries : List (Nat × Int)) : List (Nat × Int) :=
  (((entries.map Prod.fst).dedup).insertionSort (· ≤ ·)).map
    (fun d => (d, ((entries.filter (fun e => e.1 == d)).map Prod.snd).sum))

/-- The "Daily Movement Summary" of the Dashboard page: derive each log
row's `Date` from its `Time`, then group by date and sum `Quantity`. -/
def dailySummary (logs : List LogEntry) : List (Nat × Int) :=
  aggregateDaily (logs.map (fun e => (dateOf e.time, e.quantity)))

end Dash

namespace Sheet

/-- One row of the `Inventory` worksheet: columns `Sr No`, `Item Name`,
`Category`, `Location`, `Initial stock`, `Current Stock`. -/
structure GRow where
  srNo : Int
  itemName : String
  category : String
  location : String
  initialStock : Int
  currentStock : Int
  deriving Repr, DecidableEq

/-- One entry of `st.session_state['moves_list']`. -/
structure MoveReq where
  itemName : String
  fromLocation : String
  toLocation : String
  quantity : Int
  deriving Repr, DecidableEq

/-- One entry of `st.session_state['add_list']` (its `Current Stock`
column is set equal to `Initial stock` when the form appends it). -/
structure AddReq where
  itemName : String
  category : String
  location : String
  initialStock : Int
  deriving Repr, DecidableEq

/-- One iteration of the "Execute All Moves" loop:
`df.loc[df['Item Name'] == item_name, 'Current Stock'] -= move_quantity`
followed by `df.loc[df['Item Name'] == item_name, 'Location'] = to_location`
— every row of the item loses `quantity` from its stock and has its
`Location` overwritten with the destination; no row is incremented. -/
def applyMove (inv : List GRow) (m : MoveReq) : List GRow :=
  inv.map (fun r =>
    if r.itemName == m.itemName then
      { r with currentStock := r.currentStock - m.quantity,
               location := m.toLocation }
    else r)

/-- The "Execute All Moves" loop over `st.session_state['moves_list']`:
each queued move is applied in order, with no stock check at execution
time. -/
def executeAllMoves (inv : List GRow) (moves : List MoveReq) : List GRow :=
  moves.foldl applyMove inv

/-- The validation run when the move form's Add button appends a move to
`moves_list`: rejected if the item is empty, the destination is empty, the
quantity is `0`, or `move_quantity > current_stock` for the first row of
the item (a missing item makes `.values[0]` raise, so nothing is
appended). -/
def moveFormAccepts (inv : List GRow) (item toLoc : String) (q : Int) :
    Bool :=
  if item == "" || toLoc == "" || q == 0 then false
  else
    match (inv.find? (fun r => r.itemName == item)).map
        (fun r => r.currentStock) with
    | none => false
    | some cur => decide (q ≤ cur)

/-- The `Sr No` assignment of "Execute All Additions": consecutive numbers
starting at `len(df) + 1`; each added row carries
`Current Stock = Initial stock`. -/
def numberAdds (startSr : Int) : List AddReq → List GRow
  | [] => []
  | a :: rest =>
    ⟨startSr, a.itemName, a.category, a.location, a.initialStock,
      a.initialStock⟩ :: numberAdds (startSr + 1) rest

/-- The "Execute All Additions" loop: number the queued additions and
concatenate them onto the inventory table
(`pd.concat([df, new_items_df], ignore_index=True)`); no duplicate check
of any kind is performed. -/
def executeAllAdditions (inv : List GRow) (adds : List AddReq) :
    List GRow :=
  inv ++ numberAdds ((inv.length : Int) + 1) adds

/-- One iteration of the "Execute All Purchases" loop:
`df.loc[df['Item Name'] == item_name, 'Current Stock'] += purchase_quantity`.
-/
def applyPurchase (inv : List GRow) (item : String) (q : Int) :
    List GRow :=
  inv.map (fun r =>
    if r.itemName == item then
      { r with currentStock := r.currentStock + q }
    else r)

/-- Total `Current Stock` of an item summed over all rows (all
locations). -/
def totalStock (inv : List GRow) (item : String) : Int :=
  ((inv.filter (fun r => r.itemName == item)).map
    (fun r => r.currentStock)).sum

/-- Total `Current Stock` of an item at one location. -/
def stockAt (inv : List GRow) (item loc : String) : Int :=
  ((inv.filter (fun r => r.itemName == item && r.location == loc)).map
    (fun r => r.currentStock)).sum

/-- Number of inventory rows carrying a given `(Item Name, Location)`
pair. -/
def countRows (inv : List GRow) (item loc : String) : Nat :=
  (inv.filter (fun r => r.itemName == item && r.location == loc)).length

/-- Number of queued additions carrying a given `(Item Name, Location)`
pair. -/
def countAdds (adds : List AddReq) (item loc : String) : Nat :=
  (adds.filter (fun a => a.itemName == item && a.location == loc)).length

end Sheet

namespace Dash

theorem find?_updStock (inv : List Row) (it : String) (d : Int) :
    (updStock inv it d).find? (fun r => r.item == it) =
      (inv.find? (fun r => r.item == it)).map
        (fun r => { r with currentStock := r.currentStock + d }) := by
  induction inv with
  | nil => rfl
  | cons h tl ih =>
    simp only [updStock, List.map_cons, List.find?_cons]
    by_cases hh : h.item = it
    · simp [hh]
    · simp only [beq_iff_eq, hh, if_neg, reduceIte]
      have : (h.item == it) = false := by simpa using hh
      simp only [this, cond_false]
      simpa [updStock] using ih

theorem stockOf_updStock (inv : List Row) (it : String) (d : Int) :
    stockOf (updStock inv it d) it = (stockOf inv it).map (· + d) := by
  simp only [stockOf, find?_updStock]
  cases inv.find? (fun r => r.item == it) <;> rfl

theorem stockOf_updStock_isSome (inv : List Row) (it : String) (d : Int)
    (x : String) :
    (stockOf (updStock inv it d) x).isSome = (stockOf inv x).isSome := by
  unfold stockOf updStock
  rw [List.find?_map]
  have hpf : ((fun r : Row => r.item == x) ∘ fun r =>
      if r.item == it then { r with currentStock := r.currentStock + d }
      else r) = fun r : Row => r.item == x := by
    funext r
    by_cases h : r.item = it <;> simp [h]
  rw [hpf]
  cases inv.find? (fun r => r.item == x) <;> rfl

theorem confirmStep_move_insufficient (s : State) (item : String) (q : Int)
    (t : Nat) (cur : Int) (hf : stockOf s.inventory item = some cur)
    (hq : cur < q) :
    confirmStep .move s item q t = (s, .insufficientStock item) := by
  unfold confirmStep
  rw [hf]
  simp [hq]

theorem confirmStep_move_ok (s : State) (item : String) (q : Int) (t : Nat)
    (cur : Int) (hf : stockOf s.inventory item = some cur)
    (hq : ¬ cur < q) :
    confirmStep .move s item q t =
      (⟨updStock s.inventory item (-q),
        s.logs ++ [⟨t, .move, item, q, cur - q⟩]⟩,
       .ok ⟨t, .move, item, q, cur - q⟩) := by
  have h2 : stockOf (updStock s.inventory item (-q)) item =
      some (cur - q) := by
    rw [stockOf_updStock, hf]
    simp [sub_eq_add_neg]
  unfold confirmStep
  rw [hf]
  simp [hq, h2]

theorem confirmStep_purchase_ok (s : State) (item : String) (q : Int)
    (t : Nat) (cur : Int) (hf : stockOf s.inventory item = some cur) :
    confirmStep .purchase s item q t =
      (⟨updStock s.inventory item q,
        s.logs ++ [⟨t, .purchase, item, q, cur + q⟩]⟩,
       .ok ⟨t, .purchase, item, q, cur + q⟩) := by
  have h2 : stockOf (updStock s.inventory item q) item = some (cur + q) := by
    rw [stockOf_updStock, hf]
    rfl
  unfold confirmStep
  simp [h2]

theorem confirmBatch_length (a : Action) (t : Nat) :
    ∀ (batch : List (String × Int)) (s : State),
      (∀ p ∈ batch, (stockOf s.inventory p.1).isSome) →
      (confirmBatch a s batch t).2.length = batch.length := by
  intro batch
  induction batch with
  | nil => intro s _; rfl
  | cons hd rest ih =>
    intro s hex
    obtain ⟨item, q⟩ := hd
    obtain ⟨cur, hf⟩ : ∃ cur, stockOf s.inventory item = some cur :=
      Option.isSome_iff_exists.mp (hex (item, q) (List.mem_cons_self _ _))
    have hrest : ∀ p ∈ rest, (stockOf s.inventory p.1).isSome :=
      fun p hp => hex p (List.mem_cons_of_mem _ hp)
    cases a with
    | move =>
      by_cases hgt : cur < q
      · rw [show confirmBatch .move s ((item, q) :: rest) t =
            ((confirmBatch .move s rest t).1,
              .insufficientStock item :: (confirmBatch .move s rest t).2)
          from by
            simp only [confirmBatch,
              confirmStep_move_insufficient s item q t cur hf hgt]]
        simp [ih s hrest]
      · have hrest' : ∀ p ∈ rest,
            (stockOf (updStock s.inventory item (-q)) p.1).isSome := by
          intro p hp
          rw [stockOf_updStock_isSome]
          exact hrest p hp
        rw [show confirmBatch .move s ((item, q) :: rest) t =
            ((confirmBatch .move
                ⟨updStock s.inventory item (-q),
                  s.logs ++ [⟨t, .move, item, q, cur - q⟩]⟩ rest t).1,
              .ok ⟨t, .move, item, q, cur - q⟩ ::
                (confirmBatch .move
                  ⟨updStock s.inventory item (-q),
                    s.logs ++ [⟨t, .move, item, q, cur - q⟩]⟩ rest t).2)
          from by
            simp only [confirmBatch,
              confirmStep_move_ok s item q t cur hf hgt]]
        simp [ih ⟨updStock s.inventory item (-q),
          s.logs ++ [⟨t, .move, item, q, cur - q⟩]⟩ hrest']
    | purchase =>
      have hrest' : ∀ p ∈ rest,
          (stockOf (updStock s.inventory item q) p.1).isSome := by
        intro p hp
        rw [stockOf_updStock_isSome]
        exact hrest p hp
      rw [show confirmBatch .purchase s ((item, q) :: rest) t =
          ((confirmBatch .purchase
              ⟨updStock s.inventory item q,
                s.logs ++ [⟨t, .purchase, item, q, cur + q⟩]⟩ rest t).1,
            .ok ⟨t, .purchase, item, q, cur + q⟩ ::
              (confirmBatch .purchase
                ⟨updStock s.inventory item q,
                  s.logs ++ [⟨t, .purchase, item, q, cur + q⟩]⟩ rest t).2)
        from by
          simp only [confirmBatch,
            confirmStep_purchase_ok s item q t cur hf]]
      simp [ih ⟨updStock s.inventory item q,
        s.logs ++ [⟨t, .purchase, item, q, cur + q⟩]⟩ hrest']

theorem framePreserved_refl (names : List String) (r : Row) :
    framePreserved names r r :=
  ⟨rfl, rfl, fun _ => rfl⟩

theorem forall₂_frame_refl (names : List String) :
    ∀ l : List Row, List.Forall₂ (framePreserved names) l l
  | [] => List.Forall₂.nil
  | r :: tl =>
    List.Forall₂.cons (framePreserved_refl names r)
      (forall₂_frame_refl names tl)

theorem framePreserved_updStock_elem (names : List String) (it : String)
    (d : Int) (hmem : it ∈ names) (r : Row) :
    framePreserved names r
      (if r.item == it then
        { r with currentStock := r.currentStock + d } else r) := by
  by_cases hh : r.item = it
  · have hb : (r.item == it) = true := by simpa using hh
    rw [if_pos hb]
    exact ⟨rfl, rfl, fun hn => absurd (hh ▸ hmem) hn⟩
  · have hb : (r.item == it) = false := by simpa using hh
    rw [if_neg (by simp [hb])]
    exact framePreserved_refl names r

theorem updStock_frame (names : List String) (it : String) (d : Int)
    (hmem : it ∈ names) :
    ∀ inv : List Row, List.Forall₂ (framePreserved names) inv
      (updStock inv it d)
  | [] => List.Forall₂.nil
  | r :: tl =>
    List.Forall₂.cons (framePreserved_updStock_elem names it d hmem r)
      (updStock_frame names it d hmem tl)

theorem forall₂_comp {α : Type} {P Q R : α → α → Prop}
    (hc : ∀ a b c, P a b → Q b c → R a c) :
    ∀ {l m n : List α}, List.Forall₂ P l m → List.Forall₂ Q m n →
      List.Forall₂ R l n := by
  intro l m n h1 h2
  induction h1 generalizing n with
  | nil => cases h2; exact .nil
  | cons hab h1' ih =>
    cases h2 with
    | cons hbc h2' => exact .cons (hc _ _ _ hab hbc) (ih h2')

theorem framePreserved_comp (n : String) (ns : List String) (x y z : Row)
    (h1 : framePreserved (n :: ns) x y) (h2 : framePreserved ns y z) :
    framePreserved (n :: ns) x z := by
  obtain ⟨hi, hs, hu⟩ := h1
  obtain ⟨hi', hs', hu'⟩ := h2
  refine ⟨hi'.trans hi, hs'.trans hs, fun hn => ?_⟩
  have hxn : x.item ∉ ns := fun hh => hn (List.mem_cons_of_mem _ hh)
  have hy : y = x := hu hn
  have hz : z = y := hu' (by rw [hi]; exact hxn)
  rw [hz, hy]

theorem confirmStep_inventory (a : Action) (s : State) (item : String)
    (q : Int) (t : Nat) :
    (confirmStep a s item q t).1.inventory = s.inventory ∨
    ∃ d, (confirmStep a s item q t).1.inventory =
      updStock s.inventory item d := by
  cases a with
  | move =>
    cases hf : stockOf s.inventory item with
    | none =>
      left
      simp [confirmStep, hf]
    | some cur =>
      by_cases hgt : q > cur
      · left
        simp [confirmStep, hf, hgt]
      · have h2 : stockOf (updStock s.inventory item (-q)) item =
            some (cur + (-q)) := by
          rw [stockOf_updStock, hf]
          rfl
        right
        refine ⟨-q, ?_⟩
        simp [confirmStep, hf, hgt, h2]
  | purchase =>
    cases hf : stockOf s.inventory item with
    | none =>
      have h2 : stockOf (updStock s.inventory item q) item = none := by
        rw [stockOf_updStock, hf]
        rfl
      left
      simp [confirmStep, h2]
    | some cur =>
      have h2 : stockOf (updStock s.inventory item q) item =
          some (cur + q) := by
        rw [stockOf_updStock, hf]
        rfl
      right
      refine ⟨q, ?_⟩
      simp [confirmStep, h2]

end Dash

/-- C9: a "Confirm Transaction" batch only ever writes the
`Current_Stock` column of rows whose item is named in the batch: every
row keeps its `Item` and `Initial_Stock` fields, and a row whose item
does not occur in the batch is returned completely unchanged (whatever
mix of successes, insufficient-stock skips, or aborts the batch hits). -/
theorem batch_frame_effect (a : Dash.Action) (t : Nat)
    (batch : List (String × Int)) (s : Dash.State) :
    List.Forall₂ (Dash.framePreserved (batch.map Prod.fst))
      s.inventory (Dash.confirmBatch a s batch t).1.inventory := by
  induction batch generalizing s with
  | nil => exact Dash.forall₂_frame_refl _ _
  | cons hd rest ih =>
    obtain ⟨item, q⟩ := hd
    have hstep : List.Forall₂
        (Dash.framePreserved (((item, q) :: rest).map Prod.fst))
        s.inventory (Dash.confirmStep a s item q t).1.inventory := by
      rcases Dash.confirmStep_inventory a s item q t with h | ⟨d, h⟩
      · rw [h]
        exact Dash.forall₂_frame_refl _ _
      · rw [h]
        exact Dash.updStock_frame _ item d (by simp) _
    rcases hp : Dash.confirmStep a s item q t with ⟨s₁, o⟩
    rw [hp] at hstep
    simp only [Dash.confirmBatch, hp]
    cases o with
    | missingItem i => exact hstep
    | ok e =>
      exact Dash.forall₂_comp
        (Dash.framePreserved_comp item (rest.map Prod.fst)) hstep (ih s₁)
    | insufficientStock i =>
      exact Dash.forall₂_comp
        (Dash.framePreserved_comp item (rest.map Prod.fst)) hstep (ih s₁)

theorem batch_frame_effect_witness :
    List.Forall₂ (Dash.framePreserved ["Plastic Chair"])
      [⟨"Plastic Chair", 50, 50⟩, ⟨"Plastic Box", 200, 200⟩]
      (Dash.confirmBatch .move
        ⟨[⟨"Plastic Chair", 50, 50⟩, ⟨"Plastic Box", 200, 200⟩], []⟩
        [("Plastic Chair", 20)] 0).1.inventory :=
  batch_frame_effect .move 0 [("Plastic Chair", 20)]
    ⟨[⟨"Plastic Chair", 50, 50⟩, ⟨"Plastic Box", 200, 200⟩], []⟩

/-- C2: a move attempted when the current stock of the item is strictly
less than the requested quantity fails (the code shows
"Not enough stock" and `continue`s), and both the inventory table — hence
the balance of every location — and the log table are returned exactly as
they were: no partial mutation and no ledger entry. -/
theorem move_insufficient_rejected (s : Dash.State) (item : String)
    (q : Int) (t : Nat) (cur : Int)
    (hf : Dash.stockOf s.inventory item = some cur) (hq : cur < q) :
    Dash.confirmStep .move s item q t = (s, .insufficientStock item) := by
  unfold Dash.confirmStep
  rw [hf]
  simp [hq]

theorem move_insufficient_rejected_witness :
    Dash.stockOf ([⟨"Plastic Chair", 50, 50⟩] : List Dash.Row)
        "Plastic Chair" = some 50 ∧
      (50 : Int) < 60 ∧
      Dash.confirmStep .move ⟨[⟨"Plastic Chair", 50, 50⟩], []⟩
          "Plastic Chair" 60 0 =
        (⟨[⟨"Plastic Chair", 50, 50⟩], []⟩,
          .insufficientStock "Plastic Chair") :=
  ⟨rfl, by decide,
    move_insufficient_rejected ⟨[⟨"Plastic Chair", 50, 50⟩], []⟩
      "Plastic Chair" 60 0 50 rfl (by decide)⟩

namespace Sheet

theorem countRows_numberAdds (item loc : String) :
    ∀ (adds : List AddReq) (s : Int),
      countRows (numberAdds s adds) item loc = countAdds adds item loc
  | [], _ => rfl
  | a :: rest, s => by
    have ih := countRows_numberAdds item loc rest (s + 1)
    simp only [numberAdds, countRows, countAdds, List.filter_cons] at ih ⊢
    by_cases h : (a.itemName == item && a.location == loc) = true
    · simp [h, ih]
    · simp [h, ih]

end Sheet

namespace Dash

theorem sum_map_filter_split (es : List (Nat × Int)) (d : Nat) :
    ((es.filter (fun e => e.1 == d)).map Prod.snd).sum +
      ((es.filter (fun e => !(e.1 == d))).map Prod.snd).sum =
      (es.map Prod.snd).sum := by
  induction es with
  | nil => rfl
  | cons e tl ih =>
    by_cases h : e.1 = d
    · simp only [List.filter_cons]
      simp [h]
      omega
    · simp only [List.filter_cons]
      simp [h]
      omega

theorem sum_over_dates :
    ∀ (D : List Nat) (es : List (Nat × Int)), D.Nodup →
      (∀ e ∈ es, e.1 ∈ D) →
      (D.map (fun d =>
        ((es.filter (fun e => e.1 == d)).map Prod.snd).sum)).sum =
        (es.map Prod.snd).sum
  | [], es, _, hc => by
    cases es with
    | nil => rfl
    | cons e tl =>
      exact absurd (hc e (List.mem_cons_self _ _)) (List.not_mem_nil _)
  | d :: D', es, hd, hc => by
    have hnd : d ∉ D' := (List.nodup_cons.mp hd).1
    have hD' : D'.Nodup := (List.nodup_cons.mp hd).2
    have hc' : ∀ e ∈ es.filter (fun e => !(e.1 == d)), e.1 ∈ D' := by
      intro e he
      have hm := List.mem_filter.mp he
      rcases List.mem_cons.mp (hc e hm.1) with h | h
      · exfalso
        have hb : (e.1 == d) = true := by simpa using h
        simp [hb] at hm
      · exact h
    have hcongr : ∀ d' ∈ D',
        ((es.filter (fun e => e.1 == d')).map Prod.snd).sum =
        (((es.filter (fun e => !(e.1 == d))).filter
            (fun e => e.1 == d')).map Prod.snd).sum := by
      intro d' hmem
      have hne : d' ≠ d := fun hh => hnd (hh ▸ hmem)
      rw [List.filter_filter]
      have heq : es.filter (fun e => e.1 == d') =
          es.filter (fun a => a.1 == d' && !(a.1 == d)) := by
        apply List.filter_congr
        intro e _
        by_cases h : e.1 = d'
        · have h1 : (e.1 == d') = true := by simpa using h
          have h2 : (e.1 == d) = false := by
            rw [beq_eq_false_iff_ne, h]
            exact hne
          simp [h1, h2]
        · have h1 : (e.1 == d') = false := by simpa using h
          simp [h1]
      rw [heq]
    simp only [List.map_cons, List.sum_cons]
    rw [List.map_congr_left hcongr]
    rw [sum_over_dates D' (es.filter (fun e => !(e.1 == d))) hD' hc']
    exact sum_map_filter_split es d

theorem aggregateDaily_sum (es : List (Nat × Int)) :
    ((aggregateDaily es).map Prod.snd).sum = (es.map Prod.snd).sum := by
  unfold aggregateDaily
  rw [List.map_map]
  have hcomp : (Prod.snd ∘ fun d : Nat =>
      (d, ((es.filter (fun e => e.1 == d)).map Prod.snd).sum)) =
      fun d : Nat =>
        ((es.filter (fun e => e.1 == d)).map Prod.snd).sum := rfl
  rw [hcomp]
  have hperm := (List.perm_insertionSort (· ≤ ·)
      ((es.map Prod.fst).dedup)).map
    (fun d : Nat => ((es.filter (fun e => e.1 == d)).map Prod.snd).sum)
  rw [hperm.sum_eq]
  exact sum_over_dates _ es (List.nodup_dedup _)
    (fun e he => List.mem_dedup.mpr (List.mem_map.mpr ⟨e, he, rfl⟩))

theorem aggregateDaily_sorted (es : List (Nat × Int)) :
    List.Pairwise (fun p q : Nat × Int => p.1 < q.1)
      (aggregateDaily es) := by
  unfold aggregateDaily
  rw [List.pairwise_map]
  have hs : List.Sorted (· ≤ ·)
      (((es.map Prod.fst).dedup).insertionSort (· ≤ ·)) :=
    List.sorted_insertionSort _ _
  have hn : (((es.map Prod.fst).dedup).insertionSort (· ≤ ·)).Nodup :=
    ((List.perm_insertionSort _ _).nodup_iff).mpr (List.nodup_dedup _)
  exact List.Pairwise.imp (fun h => h) (hs.lt_of_le hn)

theorem aggregateDaily_mem (es : List (Nat × Int)) (p : Nat × Int)
    (hp : p ∈ aggregateDaily es) :
    (∃ e ∈ es, e.1 = p.1) ∧
      p.2 = ((es.filter (fun e => e.1 == p.1)).map Prod.snd).sum := by
  unfold aggregateDaily at hp
  rcases List.mem_map.mp hp with ⟨d, hd, rfl⟩
  refine ⟨?_, rfl⟩
  have h1 : d ∈ (es.map Prod.fst).dedup :=
    (List.mem_insertionSort _).mp hd
  rcases List.mem_map.mp (List.mem_dedup.mp h1) with ⟨e, he, hde⟩
  exact ⟨e, he, hde⟩

theorem aggregateDaily_covers (es : List (Nat × Int)) (d : Nat)
    (h : ∃ e ∈ es, e.1 = d) :
    (d, ((es.filter (fun e => e.1 == d)).map Prod.snd).sum) ∈
      aggregateDaily es := by
  unfold aggregateDaily
  refine List.mem_map.mpr ⟨d, ?_, rfl⟩
  rw [List.mem_insertionSort, List.mem_dedup]
  rcases h with ⟨e, he, hde⟩
  exact List.mem_map.mpr ⟨e, he, hde⟩

end Dash

/-- C6: failures in a "Confirm Transaction" batch are isolated per item
and reported per item: when the first item of a move batch has
insufficient stock, the loop `continue`s — the remaining items are
processed exactly as if the failed item were absent, starting from the
unchanged state — and the outcome list carries one entry per batch item
(an `insufficientStock` outcome for the failed head consed onto the
outcomes of the rest), not a single aggregate flag. -/
theorem batch_failure_isolation (s : Dash.State) (item : String)
    (q cur : Int) (rest : List (String × Int)) (t : Nat)
    (hf : Dash.stockOf s.inventory item = some cur) (hq : cur < q)
    (hex : ∀ p ∈ rest, (Dash.stockOf s.inventory p.1).isSome) :
    Dash.confirmBatch .move s ((item, q) :: rest) t =
      ((Dash.confirmBatch .move s rest t).1,
        .insufficientStock item :: (Dash.confirmBatch .move s rest t).2) ∧
    (Dash.confirmBatch .move s ((item, q) :: rest) t).2.length =
      rest.length + 1 := by
  have heq : Dash.confirmBatch .move s ((item, q) :: rest) t =
      ((Dash.confirmBatch .move s rest t).1,
        .insufficientStock item :: (Dash.confirmBatch .move s rest t).2) := by
    simp only [Dash.confirmBatch,
      Dash.confirmStep_move_insufficient s item q t cur hf hq]
  refine ⟨heq, ?_⟩
  rw [heq]
  simp [Dash.confirmBatch_length .move t rest s hex]

theorem batch_failure_isolation_witness :
    Dash.confirmBatch .move ⟨[⟨"Plastic Chair", 50, 50⟩], []⟩
        [("Plastic Chair", 60), ("Plastic Chair", 20)] 0 =
      ((Dash.confirmBatch .move ⟨[⟨"Plastic Chair", 50, 50⟩], []⟩
          [("Plastic Chair", 20)] 0).1,
        .insufficientStock "Plastic Chair" ::
          (Dash.confirmBatch .move ⟨[⟨"Plastic Chair", 50, 50⟩], []⟩
            [("Plastic Chair", 20)] 0).2) ∧
    (Dash.confirmBatch .move ⟨[⟨"Plastic Chair", 50, 50⟩], []⟩
        [("Plastic Chair", 60), ("Plastic Chair", 20)] 0).2.length = 2 :=
  batch_failure_isolation ⟨[⟨"Plastic Chair", 50, 50⟩], []⟩
    "Plastic Chair" 60 50 [("Plastic Chair", 20)] 0 rfl (by decide)
    (by decide)

/-- C7: a successful iteration of "Confirm Transaction" writes a log
entry whose `Quantity` is the requested quantity (strictly positive,
since the quantity form field has `min_value=1`) and whose `Final Count`
equals the previous balance minus the quantity for a Move (the source
side) and the previous balance plus the quantity for a Purchase. -/
theorem ledger_final_count_consistent (s : Dash.State) (item : String)
    (q : Int) (t : Nat) (cur : Int)
    (hf : Dash.stockOf s.inventory item = some cur) (hq : 1 ≤ q) :
    (∀ e, (Dash.confirmStep .move s item q t).2 = .ok e →
        e.quantity = q ∧ 1 ≤ e.quantity ∧
          e.finalCount = cur - e.quantity) ∧
    (∃ e, (Dash.confirmStep .purchase s item q t).2 = .ok e ∧
        e.quantity = q ∧ 1 ≤ e.quantity ∧
          e.finalCount = cur + e.quantity) := by
  constructor
  · intro e he
    by_cases hgt : cur < q
    · rw [Dash.confirmStep_move_insufficient s item q t cur hf hgt] at he
      exact absurd he (by simp)
    · rw [Dash.confirmStep_move_ok s item q t cur hf hgt] at he
      have he' : Dash.Outcome.ok ⟨t, .move, item, q, cur - q⟩ =
          Dash.Outcome.ok e := he
      have h3 : e = ⟨t, .move, item, q, cur - q⟩ :=
        (Dash.Outcome.ok.inj he').symm
      subst h3
      exact ⟨rfl, hq, rfl⟩
  · refine ⟨⟨t, .purchase, item, q, cur + q⟩, ?_, rfl, hq, rfl⟩
    rw [Dash.confirmStep_purchase_ok s item q t cur hf]

theorem ledger_final_count_consistent_witness :
    (∀ e, (Dash.confirmStep .move ⟨[⟨"Plastic Chair", 50, 50⟩], []⟩
          "Plastic Chair" 20 0).2 = .ok e →
        e.quantity = 20 ∧ 1 ≤ e.quantity ∧
          e.finalCount = 50 - e.quantity) ∧
    (∃ e, (Dash.confirmStep .purchase ⟨[⟨"Plastic Chair", 50, 50⟩], []⟩
          "Plastic Chair" 20 0).2 = .ok e ∧
        e.quantity = 20 ∧ 1 ≤ e.quantity ∧
          e.finalCount = 50 + e.quantity) :=
  ledger_final_count_consistent ⟨[⟨"Plastic Chair", 50, 50⟩], []⟩
    "Plastic Chair" 20 0 50 rfl (by decide)

/-- C4 counterexample: purchasing 5 of "Bucket" in a state that has no
row for "Bucket" does not create a row with `previous_count = 0` and
`final_count = 5` — the lookup `.values[0]` raises (`missingItem`), the
inventory is returned unchanged with still no "Bucket" row, and no log
entry is written. -/
theorem purchase_missing_counterexample :
    Dash.confirmStep .purchase ⟨[⟨"Plastic Chair", 50, 50⟩], []⟩
        "Bucket" 5 0 =
      (⟨[⟨"Plastic Chair", 50, 50⟩], []⟩, .missingItem "Bucket") ∧
    Dash.stockOf
        (Dash.confirmStep .purchase ⟨[⟨"Plastic Chair", 50, 50⟩], []⟩
          "Bucket" 5 0).1.inventory "Bucket" = none := by
  constructor <;> rfl

/-- C4 amended: a purchase of an item with no inventory row does not
create the row; it fails (an uncaught `IndexError` from `.values[0]` in
the code) and both the inventory and the logs are returned unchanged. -/
theorem purchase_missing_item_fails (s : Dash.State) (item : String)
    (q : Int) (t : Nat) (hf : Dash.stockOf s.inventory item = none) :
    Dash.confirmStep .purchase s item q t = (s, .missingItem item) := by
  unfold Dash.confirmStep
  simp [Dash.stockOf_updStock, hf]

/-- C1: concrete run of "Execute All Moves" falsifying the conservation
law. Starting from a single row Chair/godown with stock 40 (so the
pre-move stock at the source, 40, is at least the quantity, 15), moving
15 Chair from godown to Shop leaves a total of 25 — the source row is
decremented by 15 and relabelled to Shop, and no destination row is ever
incremented — instead of leaving stock 25 at godown, 15 at Shop and the
total invariant at 40. -/
theorem move_conservation_violated :
    Sheet.totalStock [⟨1, "Chair", "Furniture", "godown", 40, 40⟩]
        "Chair" = 40 ∧
    Sheet.stockAt [⟨1, "Chair", "Furniture", "godown", 40, 40⟩]
        "Chair" "godown" = 40 ∧
    Sheet.stockAt [⟨1, "Chair", "Furniture", "godown", 40, 40⟩]
        "Chair" "Shop" = 0 ∧
    Sheet.executeAllMoves [⟨1, "Chair", "Furniture", "godown", 40, 40⟩]
        [⟨"Chair", "godown", "Shop", 15⟩] =
      [⟨1, "Chair", "Furniture", "Shop", 40, 25⟩] ∧
    Sheet.totalStock
        (Sheet.executeAllMoves [⟨1, "Chair", "Furniture", "godown", 40, 40⟩]
          [⟨"Chair", "godown", "Shop", 15⟩]) "Chair" = 25 ∧
    Sheet.stockAt
        (Sheet.executeAllMoves [⟨1, "Chair", "Furniture", "godown", 40, 40⟩]
          [⟨"Chair", "godown", "Shop", 15⟩]) "Chair" "godown" = 0 ∧
    Sheet.stockAt
        (Sheet.executeAllMoves [⟨1, "Chair", "Furniture", "godown", 40, 40⟩]
          [⟨"Chair", "godown", "Shop", 15⟩]) "Chair" "Shop" = 25 := by
  refine ⟨rfl, rfl, rfl, rfl, rfl, rfl, rfl⟩

/-- C3: concrete run falsifying the non-negativity invariant. With a
single row X/godown holding stock 10, a move of 10 passes the move form's
validation; queueing that same validated move twice (each submission is
checked against the same cached table) and pressing "Execute All Moves" —
which re-checks nothing — drives `Current Stock` to -10: the balance goes
negative instead of the second move being rejected. -/
theorem batch_moves_negative_stock :
    Sheet.moveFormAccepts [⟨1, "X", "c", "godown", 10, 10⟩]
        "X" "Shop" 10 = true ∧
    Sheet.executeAllMoves [⟨1, "X", "c", "godown", 10, 10⟩]
        [⟨"X", "godown", "Shop", 10⟩, ⟨"X", "godown", "Shop", 10⟩] =
      [⟨1, "X", "c", "Shop", 10, -10⟩] ∧
    Sheet.totalStock
        (Sheet.executeAllMoves [⟨1, "X", "c", "godown", 10, 10⟩]
          [⟨"X", "godown", "Shop", 10⟩, ⟨"X", "godown", "Shop", 10⟩])
        "X" = -10 := by
  refine ⟨rfl, rfl, rfl⟩

/-- C5 counterexample: with a row (X, godown) already present, executing
an addition of the same (X, godown) does not fail with any duplicate
error — it appends a second row for the same (item, location) pair, so
the result holds two StockEntries for (X, godown). -/
theorem duplicate_add_counterexample :
    Sheet.executeAllAdditions [⟨1, "X", "c", "godown", 5, 5⟩]
        [⟨"X", "c", "godown", 3⟩] =
      [⟨1, "X", "c", "godown", 5, 5⟩, ⟨2, "X", "c", "godown", 3, 3⟩] ∧
    Sheet.countRows
        (Sheet.executeAllAdditions [⟨1, "X", "c", "godown", 5, 5⟩]
          [⟨"X", "c", "godown", 3⟩]) "X" "godown" = 2 := by
  exact ⟨rfl, rfl⟩

theorem purchase_missing_item_fails_witness :
    Dash.stockOf ([⟨"Plastic Chair", 50, 50⟩] : List Dash.Row)
        "Bucket" = none ∧
      Dash.confirmStep .purchase ⟨[⟨"Plastic Chair", 50, 50⟩], []⟩
          "Bucket" 7 3 =
        (⟨[⟨"Plastic Chair", 50, 50⟩], []⟩, .missingItem "Bucket") :=
  ⟨rfl,
    purchase_missing_item_fails ⟨[⟨"Plastic Chair", 50, 50⟩], []⟩
      "Bucket" 7 3 rfl⟩

/-- C5 amended: a second add of an (item, location) pair that already has
a StockEntry does not fail with any duplicate error — "Execute All
Additions" appends a row per queued addition unconditionally, so the
number of rows carrying a given (item, location) grows by exactly the
number of queued additions for that pair; the at-most-one-entry invariant
is not enforced. -/
theorem add_appends_unconditionally (inv : List Sheet.GRow)
    (adds : List Sheet.AddReq) (item loc : String) :
    Sheet.countRows (Sheet.executeAllAdditions inv adds) item loc =
      Sheet.countRows inv item loc + Sheet.countAdds adds item loc := by
  unfold Sheet.executeAllAdditions
  unfold Sheet.countRows
  rw [List.filter_append, List.length_append]
  have h := Sheet.countRows_numberAdds item loc adds
    ((inv.length : Int) + 1)
  unfold Sheet.countRows at h
  rw [h]

/-- C8: the Dashboard's "Daily Movement Summary" groups log rows by
calendar date and sums their (unsigned) quantities: on the ledger of the
spec's example (quantities 5 and 3 on day 1 and quantity 2 on day 2) it
yields `[(1, 8), (2, 2)]`; in general the output is in strictly
ascending date order, every output pair's total is the sum of the
quantities logged on that date, every output date actually occurs in the
log, and every date that occurs in the log appears in the output (absent
dates are simply absent, never zero-filled). -/
theorem daily_summary_spec :
    Dash.aggregateDaily [(1, 5), (1, 3), (2, 2)] = [(1, 8), (2, 2)] ∧
    (∀ logs : List Dash.LogEntry,
      List.Pairwise (fun p q : Nat × Int => p.1 < q.1)
        (Dash.dailySummary logs) ∧
      (∀ p ∈ Dash.dailySummary logs,
        (∃ e ∈ logs, Dash.dateOf e.time = p.1) ∧
        p.2 = ((logs.filter (fun e => Dash.dateOf e.time == p.1)).map
          (fun e => e.quantity)).sum) ∧
      (∀ d : Nat, (∃ e ∈ logs, Dash.dateOf e.time = d) →
        ∃ total, (d, total) ∈ Dash.dailySummary logs)) := by
  refine ⟨by rfl, fun logs => ⟨?_, ?_, ?_⟩⟩
  · exact Dash.aggregateDaily_sorted _
  · intro p hp
    have h := Dash.aggregateDaily_mem _ p hp
    constructor
    · rcases h.1 with ⟨e', he', h1⟩
      rcases List.mem_map.mp he' with ⟨e, he, rfl⟩
      exact ⟨e, he, h1⟩
    · rw [h.2, List.filter_map, List.map_map]
      rfl
  · intro d hd
    rcases hd with ⟨e, he, hde⟩
    exact ⟨_, Dash.aggregateDaily_covers _ d
      ⟨(Dash.dateOf e.time, e.quantity),
        List.mem_map.mpr ⟨e, he, rfl⟩, hde⟩⟩

theorem daily_summary_spec_witness :
    ∃ total, ((1 : Nat), total) ∈ Dash.dailySummary
      [⟨1440, .purchase, "A", 5, 105⟩, ⟨1500, .move, "B", 3, 7⟩,
       ⟨2900, .purchase, "A", 2, 107⟩] :=
  (daily_summary_spec.2 [⟨1440, .purchase, "A", 5, 105⟩,
      ⟨1500, .move, "B", 3, 7⟩, ⟨2900, .purchase, "A", 2, 107⟩]).2.2 1
    ⟨⟨1440, .purchase, "A", 5, 105⟩, List.mem_cons_self _ _, rfl⟩

/-- C10: summing the per-date totals of the daily summary recovers the
sum of the quantities of all log rows — grouping by date and summing
loses no quantity and counts none twice. -/
theorem daily_summary_total_conservation (logs : List Dash.LogEntry) :
    ((Dash.dailySummary logs).map Prod.snd).sum =
      (logs.map (fun e => e.quantity)).sum := by
  unfold Dash.dailySummary
  rw [Dash.aggregateDaily_sum, List.map_map]
  rfl
